import Mathlib

/-!
Formal model of the AI-text-detector scoring engine in
`functions/api/detect.ts` (Cloudflare Pages Function `POST /api/detect`).

JavaScript numbers are modelled as real numbers (the spec states every
formula as exact arithmetic).  Unicode character classes (`\p{L}`, `\p{N}`,
`\w`, `\s`) and `toLowerCase` are modelled at ASCII granularity via the
corresponding `Char` predicates; every concrete input used in a theorem
below is ASCII, where the model agrees with the JavaScript semantics
exactly.
-/

namespace Detect

/-- JS `\w` word-character class (letters, digits, underscore), which is what
the `\b` word-boundary assertion of the tokenizer regex tests. -/
def isWordChar (c : Char) : Bool := c.isAlphanum || c = '_'

/-- The apostrophe character (code point 39). -/
def apos : Char := Char.ofNat 39

/-- The character class `[\p{L}\p{N}'-]` of the tokenizer regex. -/
def isTokChar (c : Char) : Bool := c.isAlphanum || c = apos || c = '-'

/-- Wordness of an optional neighbouring character: the ends of the string
count as non-word positions for `\b`. -/
def wordAt : Option Char → Bool
  | none => false
  | some c => isWordChar c

/-- Backtracking search for the end of a regex match: `r` is the reversed
maximal run of token characters from the match start and `next` the character
following it.  Characters are dropped from the end of the run until the final
`\b` assertion (wordness changes at the cut) holds; `none` if no nonempty
prefix of the run ends at a word boundary. -/
def cutEndRev : List Char → Option Char → Option (List Char)
  | [], _ => none
  | c :: cs, next =>
    if isWordChar c != wordAt next then some (c :: cs) else cutEndRev cs (some c)

/-- The end-backtracking step on the run in its original order. -/
def cutEnd (r : List Char) (next : Option Char) : Option (List Char) :=
  (cutEndRev r.reverse next).map List.reverse

/-- One global pass of the JS regex `/\b[\p{L}\p{N}'-]+\b/gu` over a character
list.  `prev` is the character before the current position (`none` at the
start of the string).  At each position the engine attempts a match: the first
character must be in the class with `\b` holding before it; the match is the
longest prefix of the token-character run that ends at a word boundary.  On
success the engine resumes after the match, otherwise it advances one
character.  `fuel` bounds the recursion (each step consumes at least one
character, so fuel = list length suffices). -/
def scanTokens : Nat → Option Char → List Char → List (List Char)
  | 0, _, _ => []
  | _, _, [] => []
  | fuel + 1, prev, c :: cs =>
    if isTokChar c && (wordAt prev != isWordChar c) then
      match cutEnd ((c :: cs).takeWhile isTokChar) (((c :: cs).dropWhile isTokChar).head?) with
      | some t => t :: scanTokens fuel t.getLast? (List.drop t.length (c :: cs))
      | none => scanTokens fuel (some c) cs
    else
      scanTokens fuel (some c) cs

/-- `tokenizeWords` from detect.ts: lower-case the text, then collect all
matches of `/\b[\p{L}\p{N}'-]+\b/gu` (empty list when there is no match). -/
def tokenizeWords (text : String) : List String :=
  (scanTokens text.data.length none (text.data.map Char.toLower)).map fun l => ⟨l⟩

/-- JS `\s` whitespace class. -/
def isWS (c : Char) : Bool := c.isWhitespace

/-- `text.replace(/\s+/g, ' ')`: collapse every whitespace run to a single
space.  The flag records whether the previous character was whitespace. -/
def collapseAux : Bool → List Char → List Char
  | _, [] => []
  | prevWS, c :: cs =>
    if isWS c then
      if prevWS then collapseAux true cs else ' ' :: collapseAux true cs
    else c :: collapseAux false cs

/-- Whitespace-collapsing of a whole character list. -/
def collapseWS (l : List Char) : List Char := collapseAux false l

/-- Sentence-ending punctuation tested by the lookbehind `(?<=[.!?])`. -/
def isSentEnd (c : Char) : Bool := c = '.' || c = '!' || c = '?'

/-- Lookbehind on an optional previous character. -/
def isSentEndO : Option Char → Bool
  | none => false
  | some c => isSentEnd c

/-- `split(/(?<=[.!?])\s+/)` on a whitespace-collapsed list (whitespace runs
are single characters there, so the separator `\s+` is one character).
`prev` is the character preceding the current position.  Returns the first
segment and the list of later segments; the separator character is consumed. -/
def splitSegs (prev : Option Char) : List Char → List Char × List (List Char)
  | [] => ([], [])
  | c :: cs =>
    if isWS c && isSentEndO prev then
      ([], (splitSegs (some c) cs).1 :: (splitSegs (some c) cs).2)
    else
      (c :: (splitSegs (some c) cs).1, (splitSegs (some c) cs).2)

/-- JS `String.prototype.trim` on a character list. -/
def trimWS (l : List Char) : List Char :=
  ((l.dropWhile isWS).reverse.dropWhile isWS).reverse

/-- `splitSentences` from detect.ts, on character lists: collapse whitespace,
split after `.`/`!`/`?` followed by whitespace, trim each piece, drop empty
pieces. -/
def splitSentencesL (l : List Char) : List (List Char) :=
  (((splitSegs none (collapseWS l)).1 :: (splitSegs none (collapseWS l)).2).map trimWS).filter
    (fun s => s ≠ [])

/-- `splitSentences` from detect.ts. -/
def splitSentences (text : String) : List String :=
  (splitSentencesL text.data).map fun l => ⟨l⟩

/-- Per-sentence token counts, zero-length sentences dropped
(`sentences.map((s) => tokenizeWords(s).length).filter((n) => n > 0)`). -/
def sentenceLens (text : String) : List Nat :=
  ((splitSentences text).map fun s => (tokenizeWords s).length).filter fun n => 0 < n

/-- The punctuation class `[.,!?;:]` of the `punct` count. -/
def isPunctMark (c : Char) : Bool :=
  c = '.' || c = ',' || c = '!' || c = '?' || c = ';' || c = ':'

/-- `(text.match(/[.,!?;:]/g) ?? []).length`. -/
def punctCount (text : String) : Nat := (text.data.filter isPunctMark).length

/-- `clamp01` from detect.ts: `Math.max(0, Math.min(1, n))`. -/
noncomputable def clamp01 (n : ℝ) : ℝ := max 0 (min 1 n)

/-- `stddev` from detect.ts: 0 for fewer than two samples, otherwise the
square root of the sample variance with `N - 1` denominator. -/
noncomputable def stddev (nums : List ℝ) : ℝ :=
  if nums.length ≤ 1 then 0
  else
    Real.sqrt ((nums.map fun b => (b - nums.sum / nums.length) ^ 2).sum /
      ((nums.length : ℝ) - 1))

/-- The object literal returned by `computeSignals`
(`{ length, burstiness, repetition, punctuation_rate, avg_word_len, unique_word_ratio }`). -/
structure Signals where
  length : Nat
  burstiness : ℝ
  repetition : ℝ
  punctuation_rate : ℝ
  avg_word_len : ℝ
  unique_word_ratio : ℝ

/-- `computeSignals` from detect.ts.  `new Set(words).size` is the number of
distinct tokens (`words.dedup.length`); the per-token `Math.max(0, c - 1)` of
the repetition count is truncated subtraction on `Nat`. -/
noncomputable def computeSignals (text : String) : Signals :=
  let words := tokenizeWords text
  let length := words.length
  let lens := sentenceLens text
  let burstiness : ℝ :=
    if lens.length ≠ 0 then
      clamp01 (stddev (lens.map fun n : ℕ => (n : ℝ)) /
        ((lens.map fun n : ℕ => (n : ℝ)).sum / (lens.length : ℝ) + 1e-6))
    else 0
  let unique_word_ratio : ℝ :=
    if length ≠ 0 then clamp01 ((words.dedup.length : ℝ) / (length : ℝ)) else 0
  let repeats := (words.dedup.map fun w => words.count w - 1).sum
  let repetition : ℝ :=
    if length ≠ 0 then clamp01 ((repeats : ℝ) / (length : ℝ)) else 0
  let punctuation_rate : ℝ :=
    if text.length ≠ 0 then clamp01 ((punctCount text : ℝ) / (text.length : ℝ)) else 0
  let avg_word_len : ℝ :=
    if length ≠ 0 then (((words.map String.length).sum : ℝ) / (length : ℝ)) else 0
  { length, burstiness, repetition, punctuation_rate, avg_word_len, unique_word_ratio }

/-- The object literal returned by `scoreAI`
(`{ ai_probability, confidence, notes }`). -/
structure ScoreResult where
  ai_probability : ℝ
  confidence : String
  notes : List String

/-- `scoreAI` from detect.ts: five normalized components, fixed weighted sum,
length dampening, clamped score, advisory notes and a confidence bucket. -/
noncomputable def scoreAI (signals : Signals) : ScoreResult :=
  let lowBurst := clamp01 (1 - signals.burstiness)
  let rep := clamp01 (signals.repetition / 0.22)
  let lowUnique := clamp01 ((0.62 - signals.unique_word_ratio) / 0.25)
  let punctMid := 1 - clamp01 (|signals.punctuation_rate - 0.03| / 0.03)
  let wordLenMid := 1 - clamp01 (|signals.avg_word_len - 4.7| / 2.0)
  let lengthFactor := clamp01 (((signals.length : ℝ) - 40) / 260)
  let raw := 0.34 * lowBurst + 0.26 * rep + 0.20 * lowUnique +
    0.10 * punctMid + 0.10 * wordLenMid
  let ai_probability := clamp01 (raw * (0.55 + 0.45 * lengthFactor))
  let notes : List String :=
    (if signals.length < 40 then
      ["Text is short (<40 words). Scores are unreliable; provide more text."] else []) ++
    (if 0.75 < lowBurst then
      ["Low sentence-length variance (low burstiness) can correlate with templated/LLM-like output."] else []) ++
    (if 0.18 < signals.repetition then
      ["Higher repetition can correlate with automated generation, but also with certain topics/styles."] else []) ++
    (if signals.unique_word_ratio < 0.50 then
      ["Lower lexical diversity can be a signal, but domain-specific writing may also do this."] else []) ++
    ["Use this as a probabilistic indicator. Mixed human+AI or heavy editing can confuse any detector."]
  let confidence : String :=
    if 0.8 ≤ ai_probability then "high"
    else if 0.55 ≤ ai_probability then "medium"
    else "low"
  { ai_probability, confidence, notes }

/-- The JSON body produced by `onRequestPost` on success. -/
structure DetectResponse where
  ai_probability : ℝ
  confidence : String
  signals : Signals
  notes : List String

/-- The scoring part of `onRequestPost`: compute the signals of the (already
validated) text, score them, and assemble the response body. -/
noncomputable def detectResponse (text : String) : DetectResponse :=
  let signals := computeSignals text
  let scored := scoreAI signals
  { ai_probability := scored.ai_probability
    confidence := scored.confidence
    signals := signals
    notes := scored.notes }

/-- JS `String.prototype.trim` on a whole string (`trimWS` on the character
list). -/
def trimStr (s : String) : String := ⟨trimWS s.data⟩

/-- `onRequestPost` from detect.ts, with the HTTP/JSON transport abstracted
away: the optional `text` field of the request body is defaulted to the empty
string and trimmed; an empty result is a 400 error, otherwise the scored
response is returned. -/
noncomputable def onRequestPostModel (bodyText : Option String) : Except String DetectResponse :=
  let text := trimStr (bodyText.getD "")
  if text = "" then Except.error "Missing \"text\""
  else Except.ok (detectResponse text)

/-- The field names of the `signals` object in the response of
`onRequestPost`, i.e. the keys of the object literal returned by
`computeSignals`, in source order. -/
def detectSignalsFields : List String :=
  ["length", "burstiness", "repetition", "punctuation_rate", "avg_word_len",
   "unique_word_ratio"]

/-- Rank of a confidence label, ordered low < medium < high. -/
def confRank : String → Nat
  | "medium" => 1
  | "high" => 2
  | _ => 0

/-- The heuristic-score formula exactly as the spec states it (§4.3): five
sub-scores, each clamped to [0,1] (for `punctMid` and `wordLenMid` the spec
clamps the whole `1 - |…|/…` expression), fixed weighted sum, length
dampening, final clamp. -/
noncomputable def heuristicSpec (signals : Signals) : ℝ :=
  let lowBurst := clamp01 (1 - signals.burstiness)
  let rep := clamp01 (signals.repetition / 0.22)
  let lowUnique := clamp01 ((0.62 - signals.unique_word_ratio) / 0.25)
  let punctMid := clamp01 (1 - |signals.punctuation_rate - 0.03| / 0.03)
  let wordLenMid := clamp01 (1 - |signals.avg_word_len - 4.7| / 2.0)
  let lengthFactor := clamp01 (((signals.length : ℝ) - 40) / 260)
  let raw := 0.34 * lowBurst + 0.26 * rep + 0.20 * lowUnique +
    0.10 * punctMid + 0.10 * wordLenMid
  clamp01 (raw * (0.55 + 0.45 * lengthFactor))

/-- Modelled from the spec: the compression ("zippy") scorer of §4.4 is absent
from src/ (only the UI reads a `zippy_score` field).  For texts with fewer
than 60 tokens the score is defined to be 0 (compression gating); for longer
texts it is `clamp(1 - (ratio - 0.28)/(0.68 - 0.28), 0, 1)` of the gzip
compression ratio, which is environment I/O and is therefore a parameter. -/
noncomputable def zippyScoreSpec (ratio : String → ℝ) (text : String) : ℝ :=
  if (tokenizeWords text).length < 60 then 0
  else clamp01 (1 - (ratio text - 0.28) / (0.68 - 0.28))

/-- Modelled from the spec: the seeded pseudo-random unit of §4.5,
`abs(sin(seed × 9973)) mod 1`. -/
noncomputable def seededUnit (seed : Nat) : ℝ := Int.fract |Real.sin ((seed : ℝ) * 9973)|

/-- Modelled from the spec: the perturbation of §4.5, absent from src/.  A
text of fewer than 12 tokens is returned unchanged; otherwise the seeded token
(index excluding the last token) is swapped with its immediate successor and
the tokens are re-joined with single spaces (the joining convention is not
fixed by the spec; only the unchanged branch is used below). -/
noncomputable def perturbSpec (text : String) (seed : Nat) : String :=
  let toks := tokenizeWords text
  if toks.length < 12 then text
  else
    let i := (⌊seededUnit seed * ((toks.length : ℝ) - 1)⌋).toNat
    String.intercalate " "
      (toks.take i ++ [toks.getD (i + 1) "", toks.getD i ""] ++ toks.drop (i + 2))

/-- Modelled from the spec: the perturbation-stability ("detectgpt-style")
scorer of §4.5, absent from src/.  Five deterministic perturbations (seeds
1..5), each re-scored with the heuristic scorer; the mean absolute deviation
from the base score, normalized by 0.15 and clamped, is subtracted from 1. -/
noncomputable def detectGPTScoreSpec (text : String) (baseScore : ℝ) : ℝ :=
  let deltas := (List.range 5).map fun i =>
    |(scoreAI (computeSignals (perturbSpec text (i + 1)))).ai_probability - baseScore|
  1 - clamp01 (deltas.sum / 5 / 0.15)

/-! ### Basic facts about `clamp01` -/

theorem clamp01_nonneg (x : ℝ) : 0 ≤ clamp01 x := le_max_left 0 _

theorem clamp01_le_one (x : ℝ) : clamp01 x ≤ 1 :=
  max_le (by norm_num) (min_le_left 1 x)

theorem clamp01_of_mem {x : ℝ} (h0 : 0 ≤ x) (h1 : x ≤ 1) : clamp01 x = x := by
  rw [clamp01, min_eq_right h1, max_eq_right h0]

theorem clamp01_of_nonpos {x : ℝ} (h : x ≤ 0) : clamp01 x = 0 := by
  rw [clamp01, min_eq_right (le_trans h (by norm_num)), max_eq_left h]

theorem clamp01_of_one_le {x : ℝ} (h : 1 ≤ x) : clamp01 x = 1 := by
  rw [clamp01, min_eq_left h, max_eq_right (by norm_num)]

theorem clamp01_one_sub {x : ℝ} (h : 0 ≤ x) : clamp01 (1 - x) = 1 - clamp01 x := by
  rcases le_total x 1 with h1 | h1
  · rw [clamp01_of_mem (by linarith) (by linarith), clamp01_of_mem h h1]
  · rw [clamp01_of_nonpos (by linarith), clamp01_of_one_le h1]
    ring

/-! ### Characterizations of the field values -/

/-- The weighted sum `raw` of `scoreAI`, as a function of the signal record. -/
noncomputable def rawOf (s : Signals) : ℝ :=
  0.34 * clamp01 (1 - s.burstiness) +
  0.26 * clamp01 (s.repetition / 0.22) +
  0.20 * clamp01 ((0.62 - s.unique_word_ratio) / 0.25) +
  0.10 * (1 - clamp01 (|s.punctuation_rate - 0.03| / 0.03)) +
  0.10 * (1 - clamp01 (|s.avg_word_len - 4.7| / 2.0))

theorem scoreAI_ai (s : Signals) :
    (scoreAI s).ai_probability =
      clamp01 (rawOf s * (0.55 + 0.45 * clamp01 (((s.length : ℝ) - 40) / 260))) := rfl

theorem scoreAI_conf (s : Signals) :
    (scoreAI s).confidence =
      if 0.8 ≤ (scoreAI s).ai_probability then "high"
      else if 0.55 ≤ (scoreAI s).ai_probability then "medium"
      else "low" := rfl

theorem computeSignals_length (text : String) :
    (computeSignals text).length = (tokenizeWords text).length := rfl

theorem computeSignals_burstiness (text : String) :
    (computeSignals text).burstiness =
      if (sentenceLens text).length ≠ 0 then
        clamp01 (stddev ((sentenceLens text).map fun n : ℕ => (n : ℝ)) /
          (((sentenceLens text).map fun n : ℕ => (n : ℝ)).sum / ((sentenceLens text).length : ℝ) + 1e-6))
      else 0 := rfl

theorem computeSignals_repetition (text : String) :
    (computeSignals text).repetition =
      if (tokenizeWords text).length ≠ 0 then
        clamp01 (((((tokenizeWords text).dedup.map fun w => (tokenizeWords text).count w - 1).sum : ℕ) : ℝ) /
          ((tokenizeWords text).length : ℝ))
      else 0 := rfl

theorem computeSignals_unique (text : String) :
    (computeSignals text).unique_word_ratio =
      if (tokenizeWords text).length ≠ 0 then
        clamp01 (((tokenizeWords text).dedup.length : ℝ) / ((tokenizeWords text).length : ℝ))
      else 0 := rfl

theorem computeSignals_punct (text : String) :
    (computeSignals text).punctuation_rate =
      if text.length ≠ 0 then
        clamp01 ((punctCount text : ℝ) / (text.length : ℝ))
      else 0 := rfl

theorem computeSignals_avg (text : String) :
    (computeSignals text).avg_word_len =
      if (tokenizeWords text).length ≠ 0 then
        ((((tokenizeWords text).map String.length).sum : ℝ) / ((tokenizeWords text).length : ℝ))
      else 0 := rfl

theorem detectResponse_ai (text : String) :
    (detectResponse text).ai_probability = (scoreAI (computeSignals text)).ai_probability := rfl

theorem detectResponse_signals (text : String) :
    (detectResponse text).signals = computeSignals text := rfl

/-- A guarded clamp is in the unit interval. -/
theorem ite_clamp01_mem {c : Prop} [Decidable c] (x : ℝ) :
    0 ≤ (if c then clamp01 x else 0) ∧ (if c then clamp01 x else 0) ≤ 1 := by
  split
  · exact ⟨clamp01_nonneg x, clamp01_le_one x⟩
  · norm_num

/-! ### Claim theorems -/

/-- C1: for every signal vector, the heuristic score of `scoreAI` equals the
spec formula `clamp(raw × (0.55 + 0.45 × lengthFactor), 0, 1)` with
`raw = 0.34·lowBurst + 0.26·rep + 0.20·lowUnique + 0.10·punctMid +
0.10·wordLenMid`, each sub-score clamped to [0,1] as the spec states it, and
`lengthFactor = clamp((length − 40)/260, 0, 1)`. -/
theorem C1_heuristic_score_formula (s : Signals) :
    (scoreAI s).ai_probability = heuristicSpec s := by
  have h1 : clamp01 (1 - |s.punctuation_rate - 0.03| / 0.03) =
      1 - clamp01 (|s.punctuation_rate - 0.03| / 0.03) :=
    clamp01_one_sub (by positivity)
  have h2 : clamp01 (1 - |s.avg_word_len - 4.7| / 2.0) =
      1 - clamp01 (|s.avg_word_len - 4.7| / 2.0) :=
    clamp01_one_sub (by positivity)
  rw [scoreAI_ai, heuristicSpec, h1, h2, rawOf]

/-- C4: for every input text, each computed signal value except `length` and
`avg_word_len` (burstiness, repetition, punctuation_rate, unique_word_ratio)
lies in [0,1], and the returned `ai_probability` lies in [0,1]. -/
theorem C4_range_invariant (text : String) :
    (0 ≤ (computeSignals text).burstiness ∧ (computeSignals text).burstiness ≤ 1) ∧
    (0 ≤ (computeSignals text).repetition ∧ (computeSignals text).repetition ≤ 1) ∧
    (0 ≤ (computeSignals text).punctuation_rate ∧ (computeSignals text).punctuation_rate ≤ 1) ∧
    (0 ≤ (computeSignals text).unique_word_ratio ∧ (computeSignals text).unique_word_ratio ≤ 1) ∧
    (0 ≤ (detectResponse text).ai_probability ∧ (detectResponse text).ai_probability ≤ 1) := by
  refine ⟨?_, ?_, ?_, ?_, ?_⟩
  · rw [computeSignals_burstiness]; exact ite_clamp01_mem _
  · rw [computeSignals_repetition]; exact ite_clamp01_mem _
  · rw [computeSignals_punct]; exact ite_clamp01_mem _
  · rw [computeSignals_unique]; exact ite_clamp01_mem _
  · rw [detectResponse_ai, scoreAI_ai]; exact ⟨clamp01_nonneg _, clamp01_le_one _⟩

/-- C7: tokenizing the empty string yields no tokens; `computeSignals ""`
yields length 0 and every ratio field 0; and for every input with zero
tokens the token-guarded divisions all resolve to 0 (never to an undefined
value). -/
theorem C7_empty_input_defaults (text : String) :
    tokenizeWords "" = [] ∧
    (computeSignals "").length = 0 ∧
    (computeSignals "").burstiness = 0 ∧
    (computeSignals "").repetition = 0 ∧
    (computeSignals "").punctuation_rate = 0 ∧
    (computeSignals "").avg_word_len = 0 ∧
    (computeSignals "").unique_word_ratio = 0 ∧
    (tokenizeWords text = [] →
      (computeSignals text).length = 0 ∧
      (computeSignals text).repetition = 0 ∧
      (computeSignals text).unique_word_ratio = 0 ∧
      (computeSignals text).avg_word_len = 0) := by
  refine ⟨rfl, rfl, rfl, rfl, rfl, rfl, rfl, fun h => ?_⟩
  have hn : (tokenizeWords text).length = 0 := by rw [h]; rfl
  simp [computeSignals_length, computeSignals_repetition, computeSignals_unique,
    computeSignals_avg, hn]

/-- C7 witness: the pure-punctuation text "?!" has no tokens, and its
token-guarded signals are all 0. -/
theorem C7_witness :
    (computeSignals "?!").length = 0 ∧
    (computeSignals "?!").repetition = 0 ∧
    (computeSignals "?!").unique_word_ratio = 0 ∧
    (computeSignals "?!").avg_word_len = 0 :=
  (C7_empty_input_defaults "?!").2.2.2.2.2.2.2 (by decide)

/-- If every entry of a list is at least 1, the length is at most the sum. -/
theorem length_le_sum_of_one_le (L : List ℕ) (h : ∀ x ∈ L, 1 ≤ x) :
    L.length ≤ L.sum := by
  induction L with
  | nil => simp
  | cons a t ih =>
    have ha := h a (by simp)
    have ht := ih fun x hx => h x (by simp [hx])
    simp only [List.length_cons, List.sum_cons]
    omega

/-- Summing `x - 1` over entries that are all at least 1. -/
theorem sum_map_sub_one (L : List ℕ) (h : ∀ x ∈ L, 1 ≤ x) :
    (L.map fun x => x - 1).sum = L.sum - L.length := by
  induction L with
  | nil => simp
  | cons a t ih =>
    have ha := h a (by simp)
    have ht := ih fun x hx => h x (by simp [hx])
    have hlen := length_le_sum_of_one_le t fun x hx => h x (by simp [hx])
    simp only [List.map_cons, List.sum_cons, List.length_cons]
    omega

/-- The `repeats` count of `computeSignals`: excess occurrences beyond the
first, summed over distinct tokens, is total count minus distinct count. -/
theorem repeats_eq (l : List String) :
    (l.dedup.map fun w => l.count w - 1).sum = l.length - l.dedup.length := by
  have hmem : ∀ x ∈ l.dedup.map l.count, 1 ≤ x := by
    intro x hx
    rcases List.mem_map.1 hx with ⟨w, hw, rfl⟩
    exact List.count_pos_iff.2 (List.mem_dedup.1 hw)
  have h1 : ((l.dedup.map l.count).map fun x => x - 1).sum =
      (l.dedup.map l.count).sum - (l.dedup.map l.count).length :=
    sum_map_sub_one _ hmem
  simpa [List.map_map, Function.comp, List.sum_map_count_dedup_eq_length] using h1

/-- C10: repetition and unique_word_ratio are mutually determined: they sum
to exactly 1 whenever the text has at least one token, and are both 0 when
the token count is 0. -/
theorem C10_repetition_unique_complement (text : String) :
    (tokenizeWords text ≠ [] →
      (computeSignals text).repetition + (computeSignals text).unique_word_ratio = 1) ∧
    (tokenizeWords text = [] →
      (computeSignals text).repetition = 0 ∧ (computeSignals text).unique_word_ratio = 0) := by
  constructor
  · intro h
    have hn : (tokenizeWords text).length ≠ 0 := by
      simpa [List.length_eq_zero] using h
    have hd1 : 1 ≤ (tokenizeWords text).dedup.length := by
      rcases List.exists_mem_of_ne_nil _ h with ⟨a, ha⟩
      have : a ∈ (tokenizeWords text).dedup := List.mem_dedup.2 ha
      exact List.length_pos.2 (List.ne_nil_of_mem this)
    have hdn : (tokenizeWords text).dedup.length ≤ (tokenizeWords text).length :=
      (tokenizeWords text).dedup_sublist.length_le
    have hnR : (0 : ℝ) < ((tokenizeWords text).length : ℝ) := by
      exact_mod_cast Nat.pos_of_ne_zero hn
    rw [computeSignals_repetition, computeSignals_unique, if_pos hn, if_pos hn,
      repeats_eq]
    rw [clamp01_of_mem (by positivity)
        (by rw [div_le_one hnR]; exact_mod_cast Nat.sub_le _ _),
      clamp01_of_mem (by positivity) (by rw [div_le_one hnR]; exact_mod_cast hdn)]
    rw [Nat.cast_sub hdn, div_add_div_same, sub_add_cancel, div_self (ne_of_gt hnR)]
  · intro h
    have hn : (tokenizeWords text).length = 0 := by rw [h]; rfl
    simp [computeSignals_repetition, computeSignals_unique, hn]

/-- C10 witness: the two-token text "a a" has repetition 1/2 and unique
word ratio 1/2, summing to 1. -/
theorem C10_witness :
    (computeSignals "a a").repetition + (computeSignals "a a").unique_word_ratio = 1 :=
  (C10_repetition_unique_complement "a a").1 (by decide)

/-- C5: the confidence label is "high" exactly when the score is ≥ 0.80,
"medium" exactly when ≥ 0.55 and < 0.80, "low" otherwise, and with
low < medium < high the label is monotone non-decreasing in the score. -/
theorem C5_confidence_thresholds (s₁ s₂ : Signals)
    (h : (scoreAI s₁).ai_probability ≤ (scoreAI s₂).ai_probability) :
    ((scoreAI s₁).confidence = "high" ↔ 0.8 ≤ (scoreAI s₁).ai_probability) ∧
    ((scoreAI s₁).confidence = "medium" ↔
      (0.55 ≤ (scoreAI s₁).ai_probability ∧ (scoreAI s₁).ai_probability < 0.8)) ∧
    ((scoreAI s₁).confidence = "low" ↔ (scoreAI s₁).ai_probability < 0.55) ∧
    confRank (scoreAI s₁).confidence ≤ confRank (scoreAI s₂).confidence := by
  rw [scoreAI_conf s₁, scoreAI_conf s₂]
  set a := (scoreAI s₁).ai_probability with ha
  set b := (scoreAI s₂).ai_probability with hb
  refine ⟨?_, ?_, ?_, ?_⟩
  · split_ifs with h1 h2 <;> simpa using h1
  · split_ifs with h1 h2
    · simp only [show ("high" : String) ≠ "medium" from by decide, false_iff,
        not_and, not_lt]
      intro _; linarith
    · simp only [iff_true_intro rfl, true_iff]
      exact ⟨h2, lt_of_not_le h1⟩
    · simp only [show ("low" : String) ≠ "medium" from by decide, false_iff,
        not_and, not_lt]
      intro h'; exact absurd h' h2
  · split_ifs with h1 h2
    · simp only [show ("high" : String) ≠ "low" from by decide, false_iff, not_lt]
      linarith
    · simp only [show ("medium" : String) ≠ "low" from by decide, false_iff, not_lt]
      linarith [lt_of_not_le h1]
    · simp only [iff_true_intro rfl, true_iff]
      exact lt_of_not_le h2
  · split_ifs with h1 h2 h3 h4 h5 <;> simp [confRank] <;> linarith

/-- C5 witness: applying the thresholds at equal concrete scores, the
confidence rank is monotone. -/
theorem C5_witness :
    confRank (scoreAI ⟨0, 0, 0, 0, 0, 0⟩).confidence ≤
      confRank (scoreAI ⟨0, 0, 0, 0, 0, 0⟩).confidence :=
  (C5_confidence_thresholds ⟨0, 0, 0, 0, 0, 0⟩ ⟨0, 0, 0, 0, 0, 0⟩ le_rfl).2.2.2

/-- The weighted sum of `scoreAI` is nonnegative. -/
theorem rawOf_nonneg (s : Signals) : 0 ≤ rawOf s := by
  have hb0 := clamp01_nonneg (1 - s.burstiness)
  have hr0 := clamp01_nonneg (s.repetition / 0.22)
  have hu0 := clamp01_nonneg ((0.62 - s.unique_word_ratio) / 0.25)
  have hp1 := clamp01_le_one (|s.punctuation_rate - 0.03| / 0.03)
  have hw1 := clamp01_le_one (|s.avg_word_len - 4.7| / 2.0)
  rw [rawOf]; linarith

theorem upd_rep_length (s : Signals) (r : ℝ) :
    ({ s with repetition := r } : Signals).length = s.length := rfl

theorem upd_rep_burst (s : Signals) (r : ℝ) :
    ({ s with repetition := r } : Signals).burstiness = s.burstiness := rfl

theorem upd_rep_rep (s : Signals) (r : ℝ) :
    ({ s with repetition := r } : Signals).repetition = r := rfl

theorem upd_rep_punct (s : Signals) (r : ℝ) :
    ({ s with repetition := r } : Signals).punctuation_rate = s.punctuation_rate := rfl

theorem upd_rep_avg (s : Signals) (r : ℝ) :
    ({ s with repetition := r } : Signals).avg_word_len = s.avg_word_len := rfl

theorem upd_rep_unique (s : Signals) (r : ℝ) :
    ({ s with repetition := r } : Signals).unique_word_ratio = s.unique_word_ratio := rfl

/-- C8: holding all other signals fixed, the heuristic score is strictly
increasing in the repetition signal on [0, 0.22], except where the output is
already clamped at 1. -/
theorem C8_repetition_monotonicity (s : Signals) (r₁ r₂ : ℝ) (h0 : 0 ≤ r₁)
    (h12 : r₁ < r₂) (h22 : r₂ ≤ 0.22)
    (hcl : (scoreAI { s with repetition := r₂ }).ai_probability < 1) :
    (scoreAI { s with repetition := r₁ }).ai_probability <
      (scoreAI { s with repetition := r₂ }).ai_probability := by
  have e1 : clamp01 (r₁ / 0.22) = r₁ / 0.22 :=
    clamp01_of_mem (div_nonneg h0 (by norm_num)) (by rw [div_le_one (by norm_num)]; linarith)
  have e2 : clamp01 (r₂ / 0.22) = r₂ / 0.22 :=
    clamp01_of_mem (div_nonneg (by linarith) (by norm_num))
      (by rw [div_le_one (by norm_num)]; linarith)
  have hdiv : r₁ / 0.22 < r₂ / 0.22 := by gcongr
  have hraw : rawOf { s with repetition := r₁ } < rawOf { s with repetition := r₂ } := by
    simp only [rawOf, upd_rep_length, upd_rep_burst, upd_rep_rep, upd_rep_punct,
      upd_rep_avg, upd_rep_unique, e1, e2]
    linarith
  have hF0 : (0 : ℝ) < 0.55 + 0.45 * clamp01 (((s.length : ℝ) - 40) / 260) := by
    have := clamp01_nonneg (((s.length : ℝ) - 40) / 260)
    linarith
  rw [scoreAI_ai, scoreAI_ai, upd_rep_length, upd_rep_length]
  set F := 0.55 + 0.45 * clamp01 (((s.length : ℝ) - 40) / 260) with hFdef
  have hx12 : rawOf { s with repetition := r₁ } * F < rawOf { s with repetition := r₂ } * F :=
    mul_lt_mul_of_pos_right hraw hF0
  have hx1nn : 0 ≤ rawOf { s with repetition := r₁ } * F :=
    mul_nonneg (rawOf_nonneg _) (le_of_lt hF0)
  have hx2nn : 0 ≤ rawOf { s with repetition := r₂ } * F :=
    mul_nonneg (rawOf_nonneg _) (le_of_lt hF0)
  have hx2lt : rawOf { s with repetition := r₂ } * F < 1 := by
    by_contra hge
    push_neg at hge
    rw [scoreAI_ai, upd_rep_length] at hcl
    rw [← hFdef] at hcl
    rw [clamp01_of_one_le hge] at hcl
    exact lt_irrefl 1 hcl
  rw [clamp01_of_mem hx1nn (by linarith), clamp01_of_mem hx2nn (le_of_lt hx2lt)]
  exact hx12

/-- C6: burstiness is the N−1-denominator sample standard deviation of the
positive per-sentence token counts divided by (their mean + 1e-6), clamped to
[0,1]; with fewer than two samples it is 0. -/
theorem C6_burstiness_formula (text : String) :
    (2 ≤ (sentenceLens text).length →
      (computeSignals text).burstiness =
        clamp01 (Real.sqrt
            ((((sentenceLens text).map fun n : ℕ => (n : ℝ)).map fun b =>
                (b - ((sentenceLens text).map (fun n : ℕ => (n : ℝ))).sum /
                  ((sentenceLens text).length : ℝ)) ^ 2).sum /
              (((sentenceLens text).length : ℝ) - 1)) /
          (((sentenceLens text).map (fun n : ℕ => (n : ℝ))).sum /
              ((sentenceLens text).length : ℝ) + 1e-6))) ∧
    ((sentenceLens text).length < 2 → (computeSignals text).burstiness = 0) := by
  constructor
  · intro h2
    rw [computeSignals_burstiness, if_pos (by omega), stddev,
      if_neg (by simp only [List.length_map]; omega)]
    simp only [List.length_map]
  · intro h2
    rw [computeSignals_burstiness]
    by_cases h0 : (sentenceLens text).length = 0
    · rw [if_neg (by simp [h0])]
    · have h1 : (sentenceLens text).length = 1 := by omega
      rw [if_pos h0, stddev, if_pos (by simp only [List.length_map]; omega),
        zero_div, clamp01_of_mem le_rfl zero_le_one]

/-- C6 witness: the text "a a. a a." has the two sentence-length samples
[2, 2], and its burstiness is given by the sample-standard-deviation
formula. -/
theorem C6_witness :
    2 ≤ (sentenceLens "a a. a a.").length ∧
    (computeSignals "a a. a a.").burstiness =
      clamp01 (Real.sqrt
          (((((sentenceLens "a a. a a.")).map fun n : ℕ => (n : ℝ)).map fun b =>
              (b - ((sentenceLens "a a. a a.").map (fun n : ℕ => (n : ℝ))).sum /
                (((sentenceLens "a a. a a.")).length : ℝ)) ^ 2).sum /
            ((((sentenceLens "a a. a a.")).length : ℝ) - 1)) /
        (((sentenceLens "a a. a a.").map (fun n : ℕ => (n : ℝ))).sum /
            (((sentenceLens "a a. a a.")).length : ℝ) + 1e-6)) :=
  ⟨by decide, (C6_burstiness_formula "a a. a a.").1 (by decide)⟩

/-- C8 witness: with all other signals fixed at values keeping the score
below 1, raising repetition from 0 to 0.22 strictly raises the score. -/
theorem C8_witness :
    (scoreAI ⟨0, 1, (0 : ℝ), 1, 0, 1⟩).ai_probability <
      (scoreAI ⟨0, 1, (0.22 : ℝ), 1, 0, 1⟩).ai_probability :=
  C8_repetition_monotonicity ⟨0, 1, 0, 1, 0, 1⟩ 0 0.22 le_rfl (by norm_num) (by norm_num)
    (by
      rw [scoreAI_ai]
      norm_num [rawOf, clamp01, min_def, max_def, abs_of_nonneg, abs_of_nonpos])

/-! ### Concrete evaluation of the pipeline at "Cats sleep most of day." -/

theorem cats_sentenceLens : sentenceLens "Cats sleep most of day." = [5] := by decide

theorem cats_burstiness : (computeSignals "Cats sleep most of day.").burstiness = 0 := by
  rw [computeSignals_burstiness, cats_sentenceLens, if_pos (by norm_num)]
  norm_num [stddev, clamp01, min_def, max_def]

theorem cats_repetition : (computeSignals "Cats sleep most of day.").repetition = 0 := by
  have h1 : ((tokenizeWords "Cats sleep most of day.").dedup.map
      fun w => (tokenizeWords "Cats sleep most of day.").count w - 1).sum = 0 := by decide
  have h2 : (tokenizeWords "Cats sleep most of day.").length = 5 := by decide
  rw [computeSignals_repetition, h1, h2, if_pos (by norm_num)]
  norm_num [clamp01, min_def, max_def]

theorem cats_punct :
    (computeSignals "Cats sleep most of day.").punctuation_rate = 1 / 23 := by
  have h1 : punctCount "Cats sleep most of day." = 1 := by decide
  have h2 : ("Cats sleep most of day." : String).length = 23 := by decide
  rw [computeSignals_punct, h1, h2, if_pos (by norm_num)]
  norm_num [clamp01, min_def, max_def]

theorem cats_avg : (computeSignals "Cats sleep most of day.").avg_word_len = 18 / 5 := by
  have h1 : ((tokenizeWords "Cats sleep most of day.").map String.length).sum = 18 := by
    decide
  have h2 : (tokenizeWords "Cats sleep most of day.").length = 5 := by decide
  rw [computeSignals_avg, h1, h2, if_pos (by norm_num)]
  norm_num

theorem cats_unique :
    (computeSignals "Cats sleep most of day.").unique_word_ratio = 1 := by
  have h1 : (tokenizeWords "Cats sleep most of day.").dedup.length = 5 := by decide
  have h2 : (tokenizeWords "Cats sleep most of day.").length = 5 := by decide
  rw [computeSignals_unique, h1, h2, if_pos (by norm_num)]
  norm_num [clamp01, min_def, max_def]

theorem cats_length : (computeSignals "Cats sleep most of day.").length = 5 := by
  rw [computeSignals_length]; decide

theorem cats_ai :
    (scoreAI (computeSignals "Cats sleep most of day.")).ai_probability =
      66803 / 276000 := by
  rw [scoreAI_ai]
  simp only [rawOf, cats_burstiness, cats_repetition, cats_punct, cats_avg,
    cats_unique, cats_length]
  norm_num [clamp01, min_def, max_def, abs_of_nonneg, abs_of_nonpos]

theorem cats_zippy : zippyScoreSpec (fun _ => 0) "Cats sleep most of day." = 0 := by
  simp only [zippyScoreSpec]
  rw [if_pos (by decide)]

theorem cats_perturb (seed : Nat) :
    perturbSpec "Cats sleep most of day." seed = "Cats sleep most of day." := by
  simp only [perturbSpec]
  rw [if_pos (by decide)]

theorem cats_gpt :
    detectGPTScoreSpec "Cats sleep most of day."
      ((scoreAI (computeSignals "Cats sleep most of day.")).ai_probability) = 1 := by
  simp only [detectGPTScoreSpec, cats_perturb, sub_self, abs_zero]
  norm_num [clamp01, min_def, max_def]

theorem cats_post :
    onRequestPostModel (some "Cats sleep most of day.") =
      Except.ok (detectResponse "Cats sleep most of day.") := by
  simp only [onRequestPostModel, Option.getD_some]
  rw [show trimStr "Cats sleep most of day." = "Cats sleep most of day." from by decide]
  rw [if_neg (by decide : ¬("Cats sleep most of day." = ""))]

/-- C2 counterexample: at the five-token text "Cats sleep most of day." the
compression score is 0 (fewer than 60 tokens, for any compression-ratio
function) and the stability score is 1 (fewer than 12 tokens, all five
perturbations are no-ops), yet the returned ai_probability (66803/276000) is
not 0.4·heuristic + 0.3·0 + 0.3·1. -/
theorem C2_ensemble_counterexample :
    ¬ ((detectResponse "Cats sleep most of day.").ai_probability =
        0.4 * (scoreAI (computeSignals "Cats sleep most of day.")).ai_probability +
        0.3 * zippyScoreSpec (fun _ => 0) "Cats sleep most of day." +
        0.3 * detectGPTScoreSpec "Cats sleep most of day."
          ((scoreAI (computeSignals "Cats sleep most of day.")).ai_probability)) := by
  rw [detectResponse_ai, cats_zippy, cats_gpt, cats_ai]
  norm_num

/-- C2 (amended): for every valid non-empty input, the returned
ai_probability is exactly the heuristic score of the computed signals (no
three-way ensemble is applied), and it lies in [0,1]. -/
theorem C2_final_score_is_heuristic (bodyText : Option String) (r : DetectResponse)
    (h : onRequestPostModel bodyText = Except.ok r) :
    r.ai_probability = (scoreAI (computeSignals (trimStr (bodyText.getD "")))).ai_probability ∧
    0 ≤ r.ai_probability ∧ r.ai_probability ≤ 1 := by
  simp only [onRequestPostModel] at h
  by_cases hc : trimStr (bodyText.getD "") = ""
  · rw [if_pos hc] at h
    exact absurd h (by simp)
  · rw [if_neg hc] at h
    injection h with h2
    subst h2
    refine ⟨detectResponse_ai _, ?_, ?_⟩
    · rw [detectResponse_ai, scoreAI_ai]; exact clamp01_nonneg _
    · rw [detectResponse_ai, scoreAI_ai]; exact clamp01_le_one _

/-- C2 witness: the concrete request "Cats sleep most of day." is accepted
and scored with the heuristic score, inside [0,1]. -/
theorem C2_witness :
    (detectResponse "Cats sleep most of day.").ai_probability =
      (scoreAI (computeSignals "Cats sleep most of day.")).ai_probability ∧
    0 ≤ (detectResponse "Cats sleep most of day.").ai_probability ∧
    (detectResponse "Cats sleep most of day.").ai_probability ≤ 1 :=
  C2_final_score_is_heuristic (some "Cats sleep most of day.")
    (detectResponse "Cats sleep most of day.") cats_post

/-- C3 counterexample: the signals object of the response has neither a
`zippy_score` nor a `detectgpt_stability` field, so it does not contain the
eight fields the claim lists. -/
theorem C3_missing_fields_counterexample :
    ¬ ("zippy_score" ∈ detectSignalsFields ∨
        "detectgpt_stability" ∈ detectSignalsFields) := by
  decide

/-- C3 (amended): for every valid non-empty input, the output signals record
is exactly the six-field record of `computeSignals` — length, burstiness,
repetition, punctuation_rate, avg_word_len, unique_word_ratio — with no
zippy_score or detectgpt_stability field. -/
theorem C3_signals_fields (bodyText : Option String) (r : DetectResponse)
    (h : onRequestPostModel bodyText = Except.ok r) :
    r.signals = computeSignals (trimStr (bodyText.getD "")) ∧
    detectSignalsFields = ["length", "burstiness", "repetition", "punctuation_rate",
      "avg_word_len", "unique_word_ratio"] ∧
    "zippy_score" ∉ detectSignalsFields ∧
    "detectgpt_stability" ∉ detectSignalsFields := by
  simp only [onRequestPostModel] at h
  by_cases hc : trimStr (bodyText.getD "") = ""
  · rw [if_pos hc] at h
    exact absurd h (by simp)
  · rw [if_neg hc] at h
    injection h with h2
    subst h2
    exact ⟨detectResponse_signals _, rfl, by decide, by decide⟩

theorem hi_post :
    onRequestPostModel (some "Hi.") = Except.ok (detectResponse "Hi.") := by
  simp only [onRequestPostModel, Option.getD_some]
  rw [show trimStr "Hi." = "Hi." from by decide]
  rw [if_neg (by decide : ¬("Hi." = ""))]

/-- C3 witness: the concrete request "Hi." is accepted; its signals record is
the six-field `computeSignals` record. -/
theorem C3_witness :
    (detectResponse "Hi.").signals = computeSignals "Hi." ∧
    detectSignalsFields = ["length", "burstiness", "repetition", "punctuation_rate",
      "avg_word_len", "unique_word_ratio"] ∧
    "zippy_score" ∉ detectSignalsFields ∧
    "detectgpt_stability" ∉ detectSignalsFields :=
  C3_signals_fields (some "Hi.") (detectResponse "Hi.") hi_post

/-! ### Round-trip of the sentence splitter (C9) -/

theorem ws_not_sentEnd {c : Char} (h : isWS c = true) : isSentEnd c = false := by
  simp only [isWS, Char.isWhitespace, Bool.or_eq_true, decide_eq_true_eq] at h
  rcases h with ((h | h) | h) | h <;> subst h <;> decide

theorem sentEnd_not_ws {c : Char} (h : isSentEnd c = true) : isWS c = false := by
  simp only [isSentEnd, Bool.or_eq_true, decide_eq_true_eq] at h
  rcases h with (h | h) | h <;> subst h <;> decide

theorem collapseAux_ws_space :
    ∀ (b : Bool) (l : List Char), ∀ c ∈ collapseAux b l, isWS c = true → c = ' ' := by
  intro b l
  induction l generalizing b with
  | nil => simp [collapseAux]
  | cons a as ih =>
    intro c hc hws
    rw [collapseAux] at hc
    by_cases ha : isWS a = true
    · rw [if_pos ha] at hc
      rcases b with _ | _
      · rw [if_neg (by simp)] at hc
        rcases List.mem_cons.1 hc with rfl | hc
        · rfl
        · exact ih true c hc hws
      · rw [if_pos rfl] at hc
        exact ih true c hc hws
    · rw [if_neg ha] at hc
      rcases List.mem_cons.1 hc with rfl | hc
      · exact absurd hws ha
      · exact ih false c hc hws

theorem collapseAux_true_head :
    ∀ (l : List Char) (c : Char), (collapseAux true l).head? = some c → isWS c = false := by
  intro l
  induction l with
  | nil => simp [collapseAux]
  | cons a as ih =>
    intro c hc
    rw [collapseAux] at hc
    by_cases ha : isWS a = true
    · rw [if_pos ha, if_pos rfl] at hc
      exact ih c hc
    · rw [if_neg ha] at hc
      simp only [List.head?_cons, Option.some.injEq] at hc
      subst hc
      exact Bool.eq_false_iff.mpr ha

theorem collapseAux_chain (b : Bool) (l : List Char) :
    (collapseAux b l).Chain' fun x y => ¬(isWS x = true ∧ isWS y = true) := by
  induction l generalizing b with
  | nil => simp [collapseAux]
  | cons a as ih =>
    rw [collapseAux]
    by_cases ha : isWS a = true
    · rw [if_pos ha]
      rcases b with _ | _
      · rw [if_neg (by simp)]
        refine List.chain'_cons'.2 ⟨?_, ih true⟩
        intro y hy hcon
        exact absurd hcon.2 (by simpa using collapseAux_true_head as y hy)
      · rw [if_pos rfl]
        exact ih true
    · rw [if_neg ha]
      refine List.chain'_cons'.2 ⟨?_, ih false⟩
      intro y hy hcon
      exact ha hcon.1

theorem splitSegs_prev_congr (l : List Char) (p q : Option Char)
    (h : isSentEndO p = isSentEndO q) : splitSegs p l = splitSegs q l := by
  cases l with
  | nil => rfl
  | cons c cs => simp only [splitSegs, h]

/-- Decomposition of the splitter's output: either there is no split point
and the first segment is the whole list, or the list is the first segment, a
whitespace separator, and a remainder on which the splitter recurses; at a
split the segment before it ends in sentence punctuation (or is empty with
the previous character a sentence end). -/
theorem splitSegs_cases :
    ∀ (l : List Char) (prev : Option Char),
      ((splitSegs prev l).2 = [] ∧ (splitSegs prev l).1 = l) ∨
      (∃ w m, l = (splitSegs prev l).1 ++ w :: m ∧ isWS w = true ∧
        (isSentEndO (splitSegs prev l).1.getLast? = true ∨
          ((splitSegs prev l).1 = [] ∧ isSentEndO prev = true)) ∧
        (splitSegs prev l).2 = (splitSegs (some w) m).1 :: (splitSegs (some w) m).2) := by
  intro l
  induction l with
  | nil => exact fun prev => Or.inl ⟨rfl, rfl⟩
  | cons c cs ih =>
    intro prev
    by_cases hsplit : (isWS c && isSentEndO prev) = true
    · obtain ⟨hwsc, hpv⟩ : isWS c = true ∧ isSentEndO prev = true := by
        simpa [Bool.and_eq_true] using hsplit
      right
      refine ⟨c, cs, ?_, hwsc, ?_, ?_⟩
      · simp [splitSegs, hsplit]
      · right
        refine ⟨?_, hpv⟩
        simp [splitSegs, hsplit]
      · simp [splitSegs, hsplit]
    · have e1 : (splitSegs prev (c :: cs)).1 = c :: (splitSegs (some c) cs).1 := by
        simp [splitSegs, hsplit]
      have e2 : (splitSegs prev (c :: cs)).2 = (splitSegs (some c) cs).2 := by
        simp [splitSegs, hsplit]
      rcases ih (some c) with ⟨h2, h1⟩ | ⟨w, m, hm, hw, hcond, hr⟩
      · left
        rw [e1, e2, h2, h1]
        exact ⟨rfl, rfl⟩
      · right
        refine ⟨w, m, ?_, hw, ?_, ?_⟩
        · rw [e1, List.cons_append, ← hm]
        · left
          rw [e1]
          rcases hcond with hcond | ⟨hnil, hc⟩
          · rcases hs : (splitSegs (some c) cs).1 with _ | ⟨x, xs⟩
            · rw [hs] at hcond
              simp [isSentEndO] at hcond
            · rw [hs] at hcond
              rwa [List.getLast?_cons_cons]
          · rw [hnil]
            simpa [isSentEndO] using hc
        · rw [e2, hr]

theorem dropWhile_head_no {l : List Char}
    (h : ∀ c, l.head? = some c → isWS c = false) : l.dropWhile isWS = l := by
  cases l with
  | nil => rfl
  | cons a as => simp [List.dropWhile_cons, h a rfl]

theorem trimWS_cons_space (l : List Char) : trimWS (' ' :: l) = trimWS l := by
  simp [trimWS, List.dropWhile_cons, show isWS ' ' = true from rfl]

theorem trimWS_eq_dropR {l : List Char}
    (h : ∀ c, l.head? = some c → isWS c = false) :
    trimWS l = (l.reverse.dropWhile isWS).reverse := by
  rw [trimWS, dropWhile_head_no h]

theorem dropR_append_of_mem {x y : List Char} (c : Char) (hc : c ∈ y)
    (hws : isWS c = false) :
    (((x ++ y).reverse.dropWhile isWS)).reverse = x ++ (y.reverse.dropWhile isWS).reverse := by
  rw [List.reverse_append, List.dropWhile_append]
  have hne : ¬(y.reverse.dropWhile isWS).isEmpty = true := by
    rw [List.isEmpty_iff, List.dropWhile_eq_nil_iff]
    intro hall
    have hmem := hall c (List.mem_reverse.2 hc)
    rw [hws] at hmem
    exact Bool.false_ne_true hmem
  rw [if_neg hne]
  simp [List.reverse_append]

theorem dropR_append_allws {x y : List Char} (hy : ∀ c ∈ y, isWS c = true) :
    (((x ++ y).reverse.dropWhile isWS)).reverse = ((x.reverse.dropWhile isWS)).reverse := by
  rw [List.reverse_append, List.dropWhile_append, if_pos]
  rw [List.isEmpty_iff, List.dropWhile_eq_nil_iff]
  intro a ha
  exact hy a (List.mem_reverse.1 ha)

theorem dropR_eq_self {l : List Char}
    (h : ∀ c, l.getLast? = some c → isWS c = false) :
    ((l.reverse.dropWhile isWS)).reverse = l := by
  rcases hrev : l.reverse with _ | ⟨a, as⟩
  · simp [List.reverse_eq_nil_iff.1 hrev]
  · have ha : l.getLast? = some a := by
      rw [← List.head?_reverse, hrev, List.head?_cons]
    rw [List.dropWhile_cons, if_neg (by simp [h a ha])]
    rw [← hrev, List.reverse_reverse]

theorem trimWS_eq_self {l : List Char}
    (h1 : ∀ c, l.head? = some c → isWS c = false)
    (h2 : ∀ c, l.getLast? = some c → isWS c = false) : trimWS l = l := by
  rw [trimWS_eq_dropR h1, dropR_eq_self h2]

theorem trimWS_ne_nil {l : List Char} (hne : l ≠ [])
    (h : ∀ c, l.head? = some c → isWS c = false) : trimWS l ≠ [] := by
  rw [trimWS_eq_dropR h]
  intro hcon
  rw [List.reverse_eq_nil_iff, List.dropWhile_eq_nil_iff] at hcon
  rcases l with _ | ⟨a, as⟩
  · exact hne rfl
  · have := hcon a (by simp)
    rw [h a rfl] at this
    exact Bool.false_ne_true this

theorem inter_single (x : List Char) : List.intercalate [' '] [x] = x := by
  simp [List.intercalate]

theorem inter_cons2 (x y : List Char) (r : List (List Char)) :
    List.intercalate [' '] (x :: y :: r) = x ++ ' ' :: List.intercalate [' '] (y :: r) := by
  simp [List.intercalate, List.intersperse]

/-- Joining the cleaned segments of a whitespace-collapsed list whose head is
not whitespace reproduces the right-trimmed list. -/
theorem segsJoin :
    ∀ (n : Nat) (l : List Char), l.length ≤ n →
      (∀ c ∈ l, isWS c = true → c = ' ') →
      l.Chain' (fun x y => ¬(isWS x = true ∧ isWS y = true)) →
      (∀ c, l.head? = some c → isWS c = false) →
      List.intercalate [' ']
        ((((splitSegs none l).1 :: (splitSegs none l).2).map trimWS).filter
          fun s => s ≠ []) =
      trimWS l := by
  intro n
  induction n with
  | zero =>
    intro l hlen _ _ _
    have hnil : l = [] := List.length_eq_zero.1 (Nat.le_zero.1 hlen)
    subst hnil
    rfl
  | succ n ih =>
    intro l hlen hA hC hH
    rcases splitSegs_cases l none with ⟨h2, h1⟩ | ⟨w, m, hm, hw, hcond, hr⟩
    · rw [h2, h1]
      by_cases ht : trimWS l = []
      · simp [ht, List.intercalate]
      · rw [show ((([l] : List (List Char)).map trimWS).filter fun s => s ≠ []) =
            [trimWS l] by simp [List.filter, ht], inter_single]
    · set s := (splitSegs none l).1 with hsdef
      have hw' : w = ' ' :=
        hA w (by rw [hm]; exact List.mem_append_right _ (List.mem_cons_self w m)) hw
      subst hw'
      have hpunct : isSentEndO s.getLast? = true := by
        rcases hcond with h | ⟨_, hfalse⟩
        · exact h
        · simp [isSentEndO] at hfalse
      obtain ⟨e, hgl, hsend⟩ : ∃ e, s.getLast? = some e ∧ isSentEnd e = true := by
        rcases hglo : s.getLast? with _ | e
        · rw [hglo] at hpunct
          simp [isSentEndO] at hpunct
        · rw [hglo] at hpunct
          exact ⟨e, rfl, hpunct⟩
      have hsne : s ≠ [] := by
        intro hnil
        rw [hnil] at hgl
        simp at hgl
      have hmm : ∀ c ∈ m, isWS c = true → c = ' ' := fun c hc =>
        hA c (by rw [hm]; exact List.mem_append_right _ (List.mem_cons_of_mem _ hc))
      have hC' := hC
      rw [hm] at hC'
      obtain ⟨hCs, hCwm, hlink⟩ := List.chain'_append.1 hC'
      obtain ⟨hlinkWm, hCm⟩ := List.chain'_cons'.1 hCwm
      have hHm : ∀ c, m.head? = some c → isWS c = false := by
        intro c hc
        have hni := hlinkWm c hc
        by_contra hne
        have hct : isWS c = true := by revert hne; cases isWS c <;> simp
        exact hni ⟨by decide, hct⟩
      have hHs : ∀ c, s.head? = some c → isWS c = false := by
        intro c hc
        apply hH c
        rw [hm, List.head?_append, hc]
        rfl
      have hLs : ∀ c, s.getLast? = some c → isWS c = false := by
        intro c hc
        rw [hgl] at hc
        injection hc with hc
        subst hc
        exact sentEnd_not_ws hsend
      have htrims : trimWS s = s := trimWS_eq_self hHs hLs
      have hrn : (splitSegs none l).2 =
          (splitSegs none m).1 :: (splitSegs none m).2 := by
        rw [hr, splitSegs_prev_congr m (some ' ') none (by decide)]
      have hlm : m.length ≤ n := by
        have hml : l.length = s.length + 1 + m.length := by
          rw [hm]
          simp [List.length_append]
          omega
        omega
      have IH := ih m hlm hmm hCm hHm
      rw [hrn]
      simp only [List.map_cons, htrims, List.filter_cons]
      rw [if_pos (by simp [hsne])]
      rw [trimWS_eq_dropR hH, hm]
      cases m with
      | nil =>
        rw [show (splitSegs none ([] : List Char)) = ([], []) from rfl]
        simp only [List.map_nil, List.filter_nil]
        rw [show trimWS ([] : List Char) = [] from rfl]
        rw [if_neg (by simp)]
        rw [inter_single]
        rw [dropR_append_allws (by intro c hc; simp at hc; subst hc; decide)]
        rw [dropR_eq_self hLs]
      | cons c0 m1 =>
        have hc0 : isWS c0 = false := hHm c0 rfl
        have hs1 : (splitSegs none (c0 :: m1)).1 = c0 :: (splitSegs (some c0) m1).1 := by
          simp [splitSegs, hc0]
        have hs1ne : (splitSegs none (c0 :: m1)).1 ≠ [] := by
          rw [hs1]; simp
        have hs1head : ∀ c, (splitSegs none (c0 :: m1)).1.head? = some c → isWS c = false := by
          intro c hc
          rw [hs1, List.head?_cons] at hc
          injection hc with hc
          subst hc
          exact hc0
        have htne : trimWS (splitSegs none (c0 :: m1)).1 ≠ [] :=
          trimWS_ne_nil hs1ne hs1head
        rw [if_pos (by simp [htne])]
        rw [inter_cons2]
        rw [List.map_cons, List.filter_cons] at IH
        rw [if_pos (by simp [htne])] at IH
        rw [IH]
        rw [show s ++ ' ' :: c0 :: m1 = (s ++ [' ']) ++ c0 :: m1 by simp]
        rw [dropR_append_of_mem c0 (by simp) hc0]
        rw [trimWS_eq_dropR hHm]
        simp

theorem go_step (acc b : String) (bs : List String) :
    String.intercalate.go acc " " (b :: bs) =
      String.intercalate.go (acc ++ " " ++ b) " " bs := rfl

theorem mk_append (a b : List Char) : (⟨a⟩ : String) ++ ⟨b⟩ = ⟨a ++ b⟩ := by
  show String.append _ _ = _
  simp [String.append]

theorem go_mk (a : List Char) (as : List (List Char)) :
    String.intercalate.go ⟨a⟩ " " (as.map fun l => (⟨l⟩ : String)) =
      ⟨a ++ (as.map fun x => ' ' :: x).flatten⟩ := by
  induction as generalizing a with
  | nil => simp [String.intercalate.go]
  | cons b bs ih =>
    show String.intercalate.go ⟨a⟩ " " ((⟨b⟩ : String) :: bs.map fun l => (⟨l⟩ : String)) = _
    rw [go_step]
    rw [show (⟨a⟩ : String) ++ " " ++ (⟨b⟩ : String) = ⟨(a ++ [' ']) ++ b⟩ by
      rw [show (" " : String) = ⟨[' ']⟩ from rfl, mk_append, mk_append]]
    rw [ih]
    simp

theorem inter_flatten (a : List Char) (as : List (List Char)) :
    List.intercalate [' '] (a :: as) = a ++ (as.map fun x => ' ' :: x).flatten := by
  induction as generalizing a with
  | nil => simp [inter_single]
  | cons b bs ih =>
    rw [inter_cons2, ih]
    simp

theorem intercalate_mk (ls : List (List Char)) :
    String.intercalate " " (ls.map fun l => (⟨l⟩ : String)) =
      ⟨List.intercalate [' '] ls⟩ := by
  cases ls with
  | nil => rfl
  | cons a as =>
    show String.intercalate.go ⟨a⟩ " " (as.map fun l => (⟨l⟩ : String)) = _
    rw [go_mk, inter_flatten]

/-- C9: joining the sentences produced by the splitter with single spaces
reproduces the whitespace-normalized original text (whitespace runs collapsed
to one space, ends trimmed). -/
theorem C9_segment_roundtrip (text : String) :
    String.intercalate " " (splitSentences text) =
      ⟨trimWS (collapseWS text.data)⟩ := by
  simp only [splitSentences]
  rw [intercalate_mk]
  congr 1
  simp only [splitSentencesL]
  have hA : ∀ c ∈ collapseWS text.data, isWS c = true → c = ' ' :=
    collapseAux_ws_space false text.data
  have hC : (collapseWS text.data).Chain' fun x y => ¬(isWS x = true ∧ isWS y = true) :=
    collapseAux_chain false text.data
  rcases hLc : collapseWS text.data with _ | ⟨c, M⟩
  · rfl
  · rw [hLc] at hA hC
    by_cases hws : isWS c = true
    · have hcsp : c = ' ' := hA c (by simp) hws
      subst hcsp
      obtain ⟨hlink, hCM⟩ := List.chain'_cons'.1 hC
      have hMhead : ∀ d, M.head? = some d → isWS d = false := by
        intro d hd
        have hni := hlink d hd
        by_contra hne
        have hdt : isWS d = true := by revert hne; cases isWS d <;> simp
        exact hni ⟨by decide, hdt⟩
      have hAM : ∀ d ∈ M, isWS d = true → d = ' ' := fun d hd =>
        hA d (List.mem_cons_of_mem _ hd)
      have hseg1 : (splitSegs none (' ' :: M)).1 = ' ' :: (splitSegs (some ' ') M).1 := by
        simp [splitSegs, isSentEndO]
      have hseg2 : (splitSegs none (' ' :: M)).2 = (splitSegs (some ' ') M).2 := by
        simp [splitSegs, isSentEndO]
      rw [hseg1, hseg2, splitSegs_prev_congr M (some ' ') none (by decide)]
      have hmain := segsJoin M.length M le_rfl hAM hCM hMhead
      simp only [List.map_cons] at hmain ⊢
      rw [trimWS_cons_space, trimWS_cons_space]
      exact hmain
    · have hH : ∀ d, (c :: M).head? = some d → isWS d = false := by
        intro d hd
        rw [List.head?_cons] at hd
        injection hd with hd
        subst hd
        exact Bool.eq_false_iff.mpr hws
      exact segsJoin (c :: M).length (c :: M) le_rfl hA hC hH

end Detect





